import Mathlib

/-!
Verification development for the shadow_api streaming document transformer.

The Rust sources are shallowly embedded:
- `ShadowData` (src/shadow_api/shadow_data.rs) becomes the inductive `SD`
  with value semantics; the `Rc<RefCell<_>>` sharing is replaced by explicit
  state passing, and the `Weak` parent pointers become tree positions
  (`List Step` paths from the root), which is what the code's parent links
  denote for every node created by the crawl functions.
- Rust `panic!` in the non-matching `match` branches is modelled as
  `Except.error` carrying the panic message.
- The lol_html `Element`/`TextChunk` handles are modelled as attribute maps
  plus explicit instruction lists; the `regex` crate's compiled patterns are
  modelled as a function `replaceAll : String → String → String`, and
  `Regex::new` as an external `compile` parameter.
-/

set_option autoImplicit false

namespace ShadowApi

/-- Embedding of `ShadowData` (shadow_data.rs lines 15-27): a JSON-like tree
of Strings, Arrays and Objects.  `id` is the `id: Option<usize>` field
(the selector id); the `parent: Weak<...>` back-pointer is not stored, since
with value semantics a node's parent is its position in the root tree. -/
inductive SD where
  | str (id : Option Nat) (v : String)
  | arr (id : Option Nat) (items : List SD)
  | obj (id : Option Nat) (fields : List (String × SD))
deriving Repr

/-- The node's `id` field. -/
def SD.id : SD → Option Nat
  | .str i _ => i
  | .arr i _ => i
  | .obj i _ => i

/-- `ShadowData::is_string` (shadow_data.rs lines 79-84). -/
def SD.isStr : SD → Bool
  | .str _ _ => true
  | _ => false

/-- `ShadowData::is_array` (shadow_data.rs lines 91-96). -/
def SD.isArr : SD → Bool
  | .arr _ _ => true
  | _ => false

/-- `ShadowData::is_object` (shadow_data.rs lines 109-114). -/
def SD.isObj : SD → Bool
  | .obj _ _ => true
  | _ => false

/-- First-match association lookup, the behaviour of `IndexMap::get`. -/
def assocFind (m : List (String × SD)) (k : String) : Option SD :=
  match m with
  | [] => none
  | (k', v) :: rest => if k' = k then some v else assocFind rest k

/-- In-place update of the value at an existing key, the behaviour of
writing through `IndexMap::get_mut`: position and all other entries are
unchanged.  Absent keys leave the map unchanged (the code only calls this
after a successful lookup). -/
def assocUpdate (m : List (String × SD)) (k : String) (v : SD) : List (String × SD) :=
  match m with
  | [] => []
  | (k', v') :: rest =>
    if k' = k then (k', v) :: rest else (k', v') :: assocUpdate rest k v

/-- `ShadowData::get` (shadow_data.rs lines 127-139).  The `panic!` branches
for the String and Array subtypes are modelled as `Except.error` with the
panic message. -/
def SD.getE (sd : SD) (key : String) : Except String (Option SD) :=
  match sd with
  | .str _ _ => .error "ShadowData::get cannot be applied on String subtype"
  | .arr _ _ => .error "ShadowData::get cannot be applied on Array subtype"
  | .obj _ o => .ok (assocFind o key)

mutual

/-- `ShadowData::merge` (shadow_data.rs lines 140-170): merges `map2` into
`map1`.  For each entry of `map2` in order: if the key is absent from `map1`
it is inserted (`IndexMap::insert` appends at the end); if both values are
Objects the inner maps are merged recursively; otherwise `map1`'s value is
replaced by `map2`'s (the `swap` repoints `map1`'s entry to `map2`'s data). -/
def mergeInto : List (String × SD) → List (String × SD) → List (String × SD)
  | map1, [] => map1
  | map1, (subkey, map2Subval) :: rest =>
    mergeInto (mergeStep map1 subkey map2Subval) rest

/-- The body of `merge`'s loop for one `map2` entry: insert when the key is
absent, recursively merge when both values are Objects, otherwise repoint
`map1`'s entry to `map2`'s value. -/
def mergeStep (map1 : List (String × SD)) (subkey : String) (map2Subval : SD) :
    List (String × SD) :=
  match assocFind map1 subkey, map2Subval with
  | some (.obj i1 o1), .obj _ o2 =>
    assocUpdate map1 subkey (.obj i1 (mergeInto o1 o2))
  | some _, _ => assocUpdate map1 subkey map2Subval
  | none, _ => map1 ++ [(subkey, map2Subval)]

end

/-- `ShadowData::set` (shadow_data.rs lines 171-212).  On a String or Array
receiver the code panics (modelled as `Except.error`).  On an Object
receiver: absent key inserts; existing String/Array value is overridden;
existing Object value is overridden when the new value is a String/Array
and merged (via `ShadowData::merge`) when the new value is an Object. -/
def SD.set (sd : SD) (key : String) (val : SD) : Except String SD :=
  match sd with
  | .str _ _ => .error "ShadowData::set cannot be applied on String subtype"
  | .arr _ _ => .error "ShadowData::set cannot be applied on Array subtype"
  | .obj i o =>
    match assocFind o key with
    | some existing =>
      match existing, val with
      | .obj ei eo, .obj _ vo =>
        .ok (.obj i (assocUpdate o key (.obj ei (mergeInto eo vo))))
      | _, _ => .ok (.obj i (assocUpdate o key val))
    | none => .ok (.obj i (o ++ [(key, val)]))

/-- `ShadowData::push` (shadow_data.rs lines 213-221).  Appends to an Array;
panics (modelled as `Except.error`) on the String and Object subtypes. -/
def SD.pushE (sd : SD) (val : SD) : Except String SD :=
  match sd with
  | .str _ _ => .error "ShadowData::push cannot be applied on String subtype"
  | .arr i items => .ok (.arr i (items ++ [val]))
  | .obj _ _ => .error "ShadowData::push cannot be applied on Object subtype"

/-- Whether an `Except` is the `error` constructor (a modelled panic). -/
def isPanic {α : Type} : Except String α → Bool
  | .error _ => true
  | .ok _ => false

/-! ## Serialization (`impl fmt::Display for ShadowData`, shadow_data.rs lines 35-64)

The String arm of the `Display` impl runs
`serde_json::from_str(&format!("\"{}\"", val)).unwrap_or(String::from(""))`,
i.e. it wraps the raw value in double quotes, *parses* it as a JSON string
(which unescapes, not escapes), falls back to the empty string when the
parse fails, and writes the parse result between double quotes.
`parseJsonStringBody` models the JSON string grammar that
`serde_json::from_str::<String>` accepts: any char except `"`, `\` and
control chars below 0x20; the escapes `\" \\ \/ \b \f \n \r \t`; and
`\uXXXX` with surrogate pairs. -/

/-- Value of one hex digit, `none` for a non-hex char. -/
def hexDigit (c : Char) : Option Nat :=
  if '0' ≤ c ∧ c ≤ '9' then some (c.toNat - '0'.toNat)
  else if 'a' ≤ c ∧ c ≤ 'f' then some (c.toNat - 'a'.toNat + 10)
  else if 'A' ≤ c ∧ c ≤ 'F' then some (c.toNat - 'A'.toNat + 10)
  else none

/-- Value of a 4-hex-digit group. -/
def hex4 (a b c d : Char) : Option Nat :=
  match hexDigit a, hexDigit b, hexDigit c, hexDigit d with
  | some x, some y, some z, some w => some (((x * 16 + y) * 16 + z) * 16 + w)
  | _, _, _, _ => none

/-- Single-char JSON escapes. -/
def escChar (c : Char) : Option Char :=
  if c = '"' then some '"'
  else if c = '\\' then some '\\'
  else if c = '/' then some '/'
  else if c = 'b' then some (Char.ofNat 8)
  else if c = 'f' then some (Char.ofNat 12)
  else if c = 'n' then some '\n'
  else if c = 'r' then some '\r'
  else if c = 't' then some '\t'
  else none

/-- Parses the body of a JSON string (after the opening quote) up to and
including the closing quote; returns the decoded content and the unconsumed
rest.  Fails on raw control chars, bad escapes, and lone surrogates, as
serde does. -/
def parseJsonStringBody : List Char → String → Option (String × List Char)
  | [], _ => none
  | '"' :: cs, acc => some (acc, cs)
  | '\\' :: 'u' :: a :: b :: c :: d :: cs, acc =>
    (match hex4 a b c d with
     | none => none
     | some n =>
       if 0xD800 ≤ n ∧ n ≤ 0xDBFF then
         match cs with
         | '\\' :: 'u' :: a2 :: b2 :: c2 :: d2 :: cs2 =>
           (match hex4 a2 b2 c2 d2 with
            | some m =>
              if 0xDC00 ≤ m ∧ m ≤ 0xDFFF then
                parseJsonStringBody cs2
                  (acc.push (Char.ofNat (0x10000 + (n - 0xD800) * 0x400 + (m - 0xDC00))))
              else none
            | none => none)
         | _ => none
       else if 0xDC00 ≤ n ∧ n ≤ 0xDFFF then none
       else parseJsonStringBody cs (acc.push (Char.ofNat n)))
  | '\\' :: e :: cs, acc =>
    (match escChar e with
     | some c => parseJsonStringBody cs (acc.push c)
     | none => none)
  | c :: cs, acc =>
    if c.toNat < 0x20 then none else parseJsonStringBody cs (acc.push c)

/-- Models `serde_json::from_str::<String>` on a full input: one JSON string
with nothing but JSON whitespace after it. -/
def serdeFromStrJsonString (s : String) : Option String :=
  match s.data with
  | '"' :: cs =>
    match parseJsonStringBody cs "" with
    | some (v, rest) =>
      if rest.all (fun c => c = ' ' ∨ c = '\t' ∨ c = '\n' ∨ c = '\r') then some v
      else none
    | none => none
  | _ => none

mutual

/-- `impl fmt::Display for ShadowData` (shadow_data.rs lines 35-64).
String: quote-wrap the value, parse it with serde (`unwrap_or("")`), and
write the result between double quotes.  Array and Object: fold the
members with `,` separators inside `[]` / `\x7b\x7d`, object keys written
raw between double quotes followed by `:`. -/
def SD.serialize : SD → String
  | .str _ v =>
    "\"" ++ (serdeFromStrJsonString ("\"" ++ v ++ "\"")).getD "" ++ "\""
  | .arr _ items => "[" ++ serializeArrFold items "" ++ "]"
  | .obj _ fields => "\x7b" ++ serializeObjFold fields "" ++ "\x7d"

/-- The Array arm's fold (shadow_data.rs lines 44-51). -/
def serializeArrFold : List SD → String → String
  | [], carry => carry
  | x :: rest, carry =>
    let carry' := if carry.length ≠ 0 then carry ++ "," else carry
    serializeArrFold rest (carry' ++ x.serialize)

/-- The Object arm's fold (shadow_data.rs lines 53-61). -/
def serializeObjFold : List (String × SD) → String → String
  | [], carry => carry
  | (key, value) :: rest, carry =>
    let carry' := if carry.length ≠ 0 then carry ++ "," else carry
    serializeObjFold rest (carry' ++ "\"" ++ key ++ "\":" ++ value.serialize)

end

/-! ## Spec model (`ShadowJson`, shadow_json.rs)

`ShadowJsonValueSource`, `ShadowJsonData`, `ShadowJsonEdit`, `ShadowJsonEditOne`
and `ShadowJson` become `ValueSource`, `DataDef`, `EditDef`, `EditOne` and
`Rule`.  The `r#match` field of the edit op (used by
`element_content_handler`'s `match_replace` arm) is called `mtch` here since
`match` is a Lean keyword.  `IndexMap`s become ordered association lists. -/

inductive ValueSource where
  | Attribute (name : String)
  | Contents
  | Value
deriving Repr, DecidableEq

structure DataDef where
  path : Option String := none
  values : Option (List (String × ValueSource)) := none
deriving Repr, DecidableEq

structure EditOne where
  op : String
  val : Option String := none
  mtch : Option String := none
deriving Repr, DecidableEq

structure EditDef where
  attrs : Option (List (String × EditOne)) := none
  content : Option EditOne := none
deriving Repr, DecidableEq

/-- One node of the declarative rule tree (`ShadowJson`).  A structure
cannot be recursive in Lean, so the rule is an inductive with accessors. -/
inductive Rule where
  | mk (s : String) (hide : Option Bool) (delete : Option Bool)
      (edit : Option EditDef) (data : Option DataDef)
      (append : Option (List String)) (prepend : Option (List String))
      (insert_before : Option (List String)) (insert_after : Option (List String))
      (sub : Option (List Rule))
deriving Repr

def Rule.s : Rule → String | .mk v _ _ _ _ _ _ _ _ _ => v
def Rule.hide : Rule → Option Bool | .mk _ v _ _ _ _ _ _ _ _ => v
def Rule.delete : Rule → Option Bool | .mk _ _ v _ _ _ _ _ _ _ => v
def Rule.edit : Rule → Option EditDef | .mk _ _ _ v _ _ _ _ _ _ => v
def Rule.data : Rule → Option DataDef | .mk _ _ _ _ v _ _ _ _ _ => v
def Rule.append : Rule → Option (List String) | .mk _ _ _ _ _ v _ _ _ _ => v
def Rule.prepend : Rule → Option (List String) | .mk _ _ _ _ _ _ v _ _ _ => v
def Rule.insert_before : Rule → Option (List String) | .mk _ _ _ _ _ _ _ v _ _ => v
def Rule.insert_after : Rule → Option (List String) | .mk _ _ _ _ _ _ _ _ v _ => v
def Rule.sub : Rule → Option (List Rule) | .mk _ _ _ _ _ _ _ _ _ v => v

/-! ## Cursor and path resolution (shadow_data.rs lines 416-559)

The `Weak` parent pointers of `ShadowData` are modelled by tracking the
cursor as a path from the root: for every node created by
`on_data_tag_open` the recorded parent is exactly the node it sits in, so
"follow the parent pointer" is `List.dropLast` on the path.  A Rust panic
(aborting the pass) and a returned `Err(ShadowError)` (pushed to the error
sink by the caller) are distinct outcomes, kept apart by `RRes`. -/

/-- Outcome of a Rust call: normal return, recoverable `Err(ShadowError)`,
or a `panic!` that aborts the document pass. -/
inductive RRes (α : Type) where
  | ok (a : α)
  | err (m : String)
  | panic (m : String)
deriving Repr

/-- One step down the Result Tree: an object key or an array index. -/
inductive Step where
  | key (k : String)
  | idx (i : Nat)
deriving Repr, DecidableEq

/-- The node at a path, if the path exists in the tree. -/
def getAtPath : SD → List Step → Option SD
  | sd, [] => some sd
  | .obj _ o, .key k :: rest =>
    (match assocFind o k with
     | some v => getAtPath v rest
     | none => none)
  | .arr _ items, .idx i :: rest =>
    (match items[i]? with
     | some v => getAtPath v rest
     | none => none)
  | _, _ => none

/-- Replaces the node at a path. -/
def setAtPath : SD → List Step → SD → Option SD
  | _, [], v => some v
  | .obj i o, .key k :: rest, v =>
    (match assocFind o k with
     | some old =>
       (match setAtPath old rest v with
        | some upd => some (.obj i (assocUpdate o k upd))
        | none => none)
     | none => none)
  | .arr i items, .idx n :: rest, v =>
    (match items[n]? with
     | some old =>
       (match setAtPath old rest v with
        | some upd => some (.arr i (items.set n upd))
        | none => none)
     | none => none)
  | _, _, _ => none

/-- `node_at_path.get(key)`: `ShadowData::get` applied to the node at `p`,
with the panic lifted to `RRes.panic`.  A dangling path cannot occur for
states produced by the crawl functions. -/
def getAtNode (root : SD) (p : List Step) (key : String) : RRes (Option SD) :=
  match getAtPath root p with
  | none => .panic "internal: dangling tree path"
  | some node =>
    match node.getE key with
    | .error m => .panic m
    | .ok r => .ok r

/-- `node_at_path.set(key, v)` written back into the root tree. -/
def setAtNode (root : SD) (p : List Step) (key : String) (v : SD) : RRes SD :=
  match getAtPath root p with
  | none => .panic "internal: dangling tree path"
  | some node =>
    match node.set key v with
    | .error m => .panic m
    | .ok node' =>
      match setAtPath root p node' with
      | some root' => .ok root'
      | none => .panic "internal: dangling tree path"

/-- `node_at_path.push(v)` (`ShadowData::push`) written back into the root
tree; also returns the index the element was appended at. -/
def pushAtNode (root : SD) (p : List Step) (v : SD) : RRes (SD × Nat) :=
  match getAtPath root p with
  | none => .panic "internal: dangling tree path"
  | some (.arr i items) =>
    (match setAtPath root p (.arr i (items ++ [v])) with
     | some root' => .ok (root', items.length)
     | none => .panic "internal: dangling tree path")
  | some (.str _ _) => .panic "ShadowData::push cannot be applied on String subtype"
  | some (.obj _ _) => .panic "ShadowData::push cannot be applied on Object subtype"

/-- Rust `str::split('.')` over the path's characters: dots separate
pieces, empty pieces are kept, the empty input gives one empty piece. -/
def splitDots (cs : List Char) (acc : String) : List String :=
  match cs with
  | [] => [acc]
  | c :: rest => if c = '.' then acc :: splitDots rest "" else splitDots rest (acc.push c)

/-- Walk state of `on_data_tag_open`'s `while let Some(word)` loop:
`currentPath` is the loop's `current_data`, `cursorPath` is `cursor`. -/
structure WalkSt where
  root : SD
  currentPath : List Step
  cursorPath : List Step
deriving Repr

/-- The `while let Some(word) = split.next()` loop of `on_data_tag_open`
(shadow_data.rs lines 452-525).  A word is "last" when the peeked next word
is absent or empty.  For the last word in array mode: fetch the array at the
key (replacing a String/Object sitting there by a fresh empty array, ids set
to the current rule id), append a new empty Object and point the cursor at
it.  (The `is_current && is_current_an_array` block at lines 486-497 only
prints: the sibling append is commented out in the source, so no state
change is modelled.)  Non-array mode: fetch-or-create an Object at the key
and point the cursor at it.  Intermediate words fetch-or-create Objects and
descend without moving the cursor. -/
def dataWalk (sid : Nat) (isArray : Bool) :
    List String → WalkSt → RRes WalkSt
  | [], st => .ok st
  | word :: rest, st =>
    let isLast := (rest.headD "").length = 0
    if isLast then
      if isArray then
        match getAtNode st.root st.currentPath word with
        | .panic m => .panic m
        | .err m => .err m
        | .ok got =>
          let needNew : Bool :=
            match got with
            | some (.arr _ _) => false
            | _ => true
          let root1res : RRes SD :=
            if needNew then setAtNode st.root st.currentPath word (.arr (some sid) [])
            else .ok st.root
          match root1res with
          | .panic m => .panic m
          | .err m => .err m
          | .ok root1 =>
            let arrPath := st.currentPath ++ [.key word]
            match pushAtNode root1 arrPath (.obj (some sid) []) with
            | .panic m => .panic m
            | .err m => .err m
            | .ok (root2, n) =>
              dataWalk sid isArray rest
                { root := root2, currentPath := st.currentPath,
                  cursorPath := arrPath ++ [.idx n] }
      else
        match getAtNode st.root st.currentPath word with
        | .panic m => .panic m
        | .err m => .err m
        | .ok (some _) =>
          dataWalk sid isArray rest
            { st with cursorPath := st.currentPath ++ [.key word] }
        | .ok none =>
          match setAtNode st.root st.currentPath word (.obj (some sid) []) with
          | .panic m => .panic m
          | .err m => .err m
          | .ok root1 =>
            dataWalk sid isArray rest
              { root := root1, currentPath := st.currentPath,
                cursorPath := st.currentPath ++ [.key word] }
    else
      match getAtNode st.root st.currentPath word with
      | .panic m => .panic m
      | .err m => .err m
      | .ok (some _) =>
        dataWalk sid isArray rest
          { st with currentPath := st.currentPath ++ [.key word] }
      | .ok none =>
        match setAtNode st.root st.currentPath word (.obj (some sid) []) with
        | .panic m => .panic m
        | .err m => .err m
        | .ok root1 =>
          dataWalk sid isArray rest
            { root := root1, currentPath := st.currentPath ++ [.key word],
              cursorPath := st.cursorPath }

/-- The crawl cursor: the Result Tree root plus the current write position
(`ShadowDataCursor` / the cached crawl cursor). -/
structure CrawlState where
  root : SD
  pos : List Step
deriving Repr

/-- `ShadowData::on_data_tag_open` (shadow_data.rs lines 416-535).  With no
`data` block: `Ok(None)`.  With a `data` block but no `path`: the cursor is
unchanged and returned.  With a `path`: the last character decides
array mode (`chars().last().unwrap()` — an empty path string panics on the
`unwrap`; a lone dot is a `ShadowError`), the trailing dot is stripped,
and the dot-split word walk runs; on success the new cursor position is
both returned and stored back. -/
def onDataTagOpen (sid : Nat) (dataDef : Option DataDef) (st : CrawlState) :
    RRes (Option (List Step) × CrawlState) :=
  match dataDef with
  | none => .ok (none, st)
  | some dd =>
    match dd.path with
    | none => .ok (some st.pos, st)
    | some path =>
      match path.data.getLast? with
      | none => .panic "called Option::unwrap() on a None value"
      | some lastChar =>
        let isArray : Bool := lastChar == '.'
        let stripped := if isArray then String.mk path.data.dropLast else path
        if isArray ∧ stripped.length = 0 then
          .err "Invalid def : single dot is not accepted, as the definition does not allow a parent to predefine an array"
        else
          match dataWalk sid isArray (splitDots stripped.data "")
              { root := st.root, currentPath := st.pos, cursorPath := st.pos } with
          | .panic m => .panic m
          | .err m => .err m
          | .ok w => .ok (some w.cursorPath, { root := w.root, pos := w.cursorPath })

/-- `ShadowData::on_data_tag_close` (shadow_data.rs lines 537-559): when the
rule declared a `path`, move the cursor up one level; at the root this is a
`ShadowError`. -/
def onDataTagClose (tagName : String) (sid : Nat) (dataDef : Option DataDef)
    (st : CrawlState) : RRes CrawlState :=
  match dataDef with
  | none => .ok st
  | some dd =>
    match dd.path with
    | none => .ok st
    | some _ =>
      match st.pos with
      | [] =>
        .err ("on_data_tag_close[" ++ tagName ++ "|" ++ toString sid ++
          "]: No parent. Cannot move up the tree")
      | _ :: _ => .ok { st with pos := st.pos.dropLast }

/-! ## Regex cache and `match_replace` (shadow_api.rs lines 514-552)

A compiled pattern of the external `regex` crate is modelled by its
behaviour: the `replace_all` function (input and replacement to result).
`Regex::new` is an external parameter `compile`; `Err(e)` carries the
crate's error text. -/

structure CompiledRegex where
  replaceAll : String → String → String

/-- The `regex_map` entry of the type-erased cache. -/
abbrev RegexCache := List (String × CompiledRegex)

/-- `HashMap::get` on the regex map (patterns are inserted at most once, so
order does not matter). -/
def cacheFind (cache : RegexCache) (p : String) : Option CompiledRegex :=
  match cache with
  | [] => none
  | (p', r) :: rest => if p' = p then some r else cacheFind rest p

/-- Result of `ShadowApi::match_replace`: the optional replacement plus the
updated cache and error sink. -/
structure MRRes where
  result : Option String
  cache : RegexCache
  errors : List String

/-- `ShadowApi::match_replace` (shadow_api.rs lines 514-552).  A cached
pattern is reused; a missing pattern is compiled and inserted, or, on a
compile error, reported to the sink and the call returns `None` with the
cache unchanged.  With a compiled pattern, `replace_all` runs over
`old_value` and the result is returned only when it differs from
`old_value`. -/
def matchReplace (compile : String → Except String CompiledRegex)
    (mtch oldValue newValue : String) (errors : List String)
    (cache : RegexCache) : MRRes :=
  match cacheFind cache mtch with
  | some regex =>
    let newVal := regex.replaceAll oldValue newValue
    { result := if newVal ≠ oldValue then some newVal else none,
      cache := cache, errors := errors }
  | none =>
    match compile mtch with
    | .ok computed =>
      let newVal := computed.replaceAll oldValue newValue
      { result := if newVal ≠ oldValue then some newVal else none,
        cache := cache ++ [(mtch, computed)], errors := errors }
    | .error e =>
      { result := none, cache := cache,
        errors := errors ++ ["Invalid regex: " ++ mtch ++ " | Error: " ++ e] }

/-! ## Element callback body (`element_content_handler`, shadow_api.rs lines 293-509)

The lol_html `Element` handle is modelled as an ordered attribute map, and
the structural mutations requested from the engine (`after`, `before`,
`append`, `prepend`, `remove`) as an instruction list. -/

/-- Ordered attribute map of an element. -/
abbrev Attrs := List (String × String)

def attrsGet (attrs : Attrs) (k : String) : Option String :=
  match attrs with
  | [] => none
  | (k', v) :: rest => if k' = k then some v else attrsGet rest k

/-- `set_attribute`: update in place or append.  (The `Err` case of
lol_html's `set_attribute` — an unrepresentable attribute name — is not
modelled; the write always succeeds.) -/
def attrsSet (attrs : Attrs) (k v : String) : Attrs :=
  match attrs with
  | [] => [(k, v)]
  | (k', v') :: rest =>
    if k' = k then (k', v) :: rest else (k', v') :: attrsSet rest k v

/-- `remove_attribute`. -/
def attrsRemove (attrs : Attrs) (k : String) : Attrs :=
  match attrs with
  | [] => []
  | (k', v') :: rest =>
    if k' = k then rest else (k', v') :: attrsRemove rest k

/-- A structural mutation requested from the Streaming Markup Engine. -/
inductive Instr where
  | after (html : String)
  | before (html : String)
  | append (html : String)
  | prepend (html : String)
  | removeEl
deriving Repr, DecidableEq

/-- The structural-insertion block of `element_content_handler`
(shadow_api.rs lines 305-324): four `if let Some` blocks, each looping over
the whole list and requesting one mutation per entry, in the order
`insert_after`, `insert_before`, `append`, `prepend`. -/
def insertionPhase (r : Rule) : List Instr :=
  ((r.insert_after.getD []).map Instr.after)
    ++ ((r.insert_before.getD []).map Instr.before)
    ++ ((r.append.getD []).map Instr.append)
    ++ ((r.prepend.getD []).map Instr.prepend)

/-- The `hide` block of `element_content_handler` (shadow_api.rs lines
327-332).  `get_attribute` returns a copy of the value; the `Some` arm runs
`style.push_str(";display: none")` on that copy and never calls
`set_attribute`, so the element keeps its old `style`.  The `None` arm sets
a new `style="display: none"`. -/
def hidePhase (hide : Bool) (attrs : Attrs) : Attrs :=
  if hide then
    match attrsGet attrs "style" with
    | some style =>
      let _appendedCopy := style ++ ";display: none"
      attrs
    | none => attrsSet attrs "style" "display: none"
  else attrs

/-- State threaded through the attribute-edit loop. -/
structure EditAttrsSt where
  attrs : Attrs
  errors : List String
  cache : RegexCache

/-- One iteration of the `edit.attrs` loop (shadow_api.rs lines 335-371),
dispatching on the op name. -/
def editAttrStep (compile : String → Except String CompiledRegex)
    (key : String) (val : EditOne) (st : EditAttrsSt) : EditAttrsSt :=
  if val.op = "delete" then
    { st with attrs := attrsRemove st.attrs key }
  else if val.op = "upsert" then
    match val.val with
    | some value => { st with attrs := attrsSet st.attrs key value }
    | none =>
      { st with errors := st.errors ++
          ["Upsert requires val attribute (edit.attrs." ++ key ++ ")"] }
  else if val.op = "match_replace" then
    match val.mtch with
    | some mtch =>
      (match val.val with
       | some newValue =>
         let oldValue := (attrsGet st.attrs key).getD ""
         let mr := matchReplace compile mtch oldValue newValue st.errors st.cache
         (match mr.result with
          | some replacement =>
            { attrs := attrsSet st.attrs key replacement,
              errors := mr.errors, cache := mr.cache }
          | none => { st with errors := mr.errors, cache := mr.cache })
       | none => st)
    | none => st
  else
    { st with errors := st.errors ++
        ["Invalid operation (edit.attrs." ++ key ++ "): " ++ val.op ++
          ". Allowed values : delete/upsert/match_replace"] }

/-- The whole `edit.attrs` loop in map order. -/
def editAttrsPhase (compile : String → Except String CompiledRegex)
    (ops : List (String × EditOne)) (st : EditAttrsSt) : EditAttrsSt :=
  match ops with
  | [] => st
  | (key, val) :: rest => editAttrsPhase compile rest (editAttrStep compile key val st)

/-- The `if !delete` block of `element_content_handler` (shadow_api.rs
lines 326-374): when the rule is not marked for deletion, apply `hide` and
then the attribute edit ops; a doomed element is left untouched here. -/
def elementEditsPhase (compile : String → Except String CompiledRegex)
    (r : Rule) (st : EditAttrsSt) : EditAttrsSt :=
  if (r.delete.getD false) then st
  else
    let st1 := { st with attrs := hidePhase (r.hide.getD false) st.attrs }
    match r.edit with
    | some edit =>
      (match edit.attrs with
       | some ops => editAttrsPhase compile ops st1
       | none => st1)
    | none => st1

/-! ## Text callback body (`text_content_handler`, shadow_api.rs lines 554-632) -/

/-- State captured by one compiled text handler: the per-rule content
buffer, the shared error sink, the shared regex cache and the shared
cursor. -/
structure TCState where
  buffer : String
  errors : List String
  cache : RegexCache
  crawl : CrawlState

/-- The `edit.content` dispatch on the final chunk (shadow_api.rs lines
570-605): `delete` clears the buffer, `upsert` replaces it wholesale
(missing `val` is an error), `match_replace` runs the cached substitution
over the buffer, and an unknown op is an error. -/
def applyContentEdit (compile : String → Except String CompiledRegex)
    (contentOp : Option EditOne) (buffer : String) (errors : List String)
    (cache : RegexCache) : String × List String × RegexCache :=
  match contentOp with
  | none => (buffer, errors, cache)
  | some content =>
    if content.op = "delete" then ("", errors, cache)
    else if content.op = "upsert" then
      match content.val with
      | some value => (value, errors, cache)
      | none => (buffer, errors ++ ["Upsert requires an existing val content string"], cache)
    else if content.op = "match_replace" then
      match content.mtch with
      | some mtch =>
        (match content.val with
         | some newValue =>
           let mr := matchReplace compile mtch buffer newValue errors cache
           (match mr.result with
            | some replacement => (replacement, mr.errors, mr.cache)
            | none => (buffer, mr.errors, mr.cache))
         | none => (buffer, errors, cache))
      | none => (buffer, errors, cache)
    else
      (buffer, errors ++ ["Invalid operation (edit.content): " ++ content.op ++
        ". Allowed values : delete/upsert/match_replace"], cache)

/-- The `data.values` loop of the text handler (shadow_api.rs lines
606-626): every `Contents` entry writes the processed buffer as a string
field at the cursor's current position; other sources are skipped here. -/
def writeContentsValues (sid : Nat) (buffer : String)
    (values : List (String × ValueSource)) (st : CrawlState) : RRes CrawlState :=
  match values with
  | [] => .ok st
  | (key, .Contents) :: rest =>
    (match setAtNode st.root st.pos key (.str (some sid) buffer) with
     | .panic m => .panic m
     | .err m => .err m
     | .ok root' => writeContentsValues sid buffer rest { st with root := root' })
  | (_, _) :: rest => writeContentsValues sid buffer rest st

/-- `ShadowApi::text_content_handler` (shadow_api.rs lines 554-632) for one
chunk.  Every chunk is appended to the buffer and removed from the output
stream immediately; only on the chunk flagged last-in-text-node does the
handler apply the content edit op, perform the `Contents` data writes, emit
the final buffer via `replace` (which supersedes the `remove` of that same
chunk) and clear the buffer.  The returned string is what the engine emits
for this chunk. -/
def textContentHandler (compile : String → Except String CompiledRegex)
    (r : Rule) (sid : Nat) (chunkText : String) (isLastInTextNode : Bool)
    (st : TCState) : RRes (TCState × String) :=
  let buffer := st.buffer ++ chunkText
  if !isLastInTextNode then .ok ({ st with buffer := buffer }, "")
  else
    match applyContentEdit compile (r.edit.bind EditDef.content) buffer st.errors st.cache with
    | (buffer1, errors1, cache1) =>
      let crawlRes : RRes CrawlState :=
        match r.data with
        | some dataDef =>
          (match dataDef.values with
           | some values =>
             if values.length ≠ 0 then writeContentsValues sid buffer1 values st.crawl
             else .ok st.crawl
           | none => .ok st.crawl)
        | none => .ok st.crawl
      match crawlRes with
      | .panic m => .panic m
      | .err m => .err m
      | .ok crawl' =>
        .ok ({ buffer := "", errors := errors1, cache := cache1, crawl := crawl' }, buffer1)

/-- Runs the text handler over a list of `(chunk, isLastInTextNode)`
events, collecting the per-chunk emissions. -/
def runTextChunks (compile : String → Except String CompiledRegex)
    (r : Rule) (sid : Nat) (st : TCState) :
    List (String × Bool) → RRes (TCState × List String)
  | [] => .ok (st, [])
  | (c, last) :: rest =>
    match textContentHandler compile r sid c last st with
    | .panic m => .panic m
    | .err m => .err m
    | .ok (st', out) =>
      match runTextChunks compile r sid st' rest with
      | .panic m => .panic m
      | .err m => .err m
      | .ok (stF, outs) => .ok (stF, out :: outs)

/-! ## Rule compiler (`ShadowApi::parse` / `parse_rec` / `parse_one`,
shadow_api.rs lines 83-291)

`Selector::from_str` of the external lol_html crate is modelled by a
function `selCheck : String → Option String` returning `none` for a valid
selector and `some cause` for an invalid one (the crate's error text); the compile state records the error sink, the
registered handler list, the absolute selectors handed to the selector
parser (`attempted`, the observable trace of which rules were processed)
and the `static COUNTER` used for rule ids. -/

inductive HKind where
  | element
  | text
deriving Repr, DecidableEq

structure CompSt where
  counter : Nat
  errors : List String
  handlers : List (String × HKind × Nat)
  attempted : List String
deriving Repr, DecidableEq

/-- `selector_stack.join(" ")`. -/
def joinSpace (stack : List String) : String :=
  String.intercalate " " stack

/-- The element/text handler decision of `parse_one` (shadow_api.rs lines
184-232) and the handler registration (lines 234-277): compute
`use_element_handler` and `use_text_handler` from the rule's fields,
report an empty `data.values` map, and append the decided handlers. -/
def registerRule (hide delete : Option Bool) (edit : Option EditDef)
    (data : Option DataDef)
    (append prepend insert_before insert_after : Option (List String))
    (currentSelector : String) (sid : Nat) (st : CompSt) : CompSt :=
  let useElement0 : Bool :=
    hide.getD false
    || (insert_after.getD []).length > 0
    || (insert_before.getD []).length > 0
    || (append.getD []).length > 0
    || (prepend.getD []).length > 0
    || edit.isSome
    || delete.getD false
    || (match data with
        | some sd => decide ((sd.path.getD "").length > 0)
        | none => false)
  let elemTextErr : Bool × Bool × Bool :=
    match data with
    | some dd =>
      (match dd.values with
       | some values =>
         if values.length ≠ 0 then
           values.foldl
             (fun acc kv =>
               match kv.2 with
               | .Attribute _ => (true, acc.2.1, acc.2.2)
               | .Contents => (acc.1, true, acc.2.2)
               | .Value => (true, acc.2.1, acc.2.2))
             (useElement0, false, false)
         else (false, false, true)
       | none => (useElement0, false, false))
    | none => (useElement0, false, false)
  let useElement := elemTextErr.1
  let useText0 := elemTextErr.2.1
  let valuesEmptyErr := elemTextErr.2.2
  let st :=
    if valuesEmptyErr then
      { st with errors := st.errors ++ ["Invalid def : 'data.values' is not an object"] }
    else st
  let useText : Bool :=
    useText0 ||
      (match edit with
       | some e => e.content.isSome
       | none => false)
  let st :=
    if useElement then
      { st with handlers := st.handlers ++ [(currentSelector, HKind.element, sid)] }
    else st
  if useText then
    { st with handlers := st.handlers ++ [(currentSelector, HKind.text, sid)] }
  else st

mutual

/-- `ShadowApi::parse_one` (shadow_api.rs lines 139-291).  Takes and
returns the shared selector stack (a `&mut Vec` in the source).  An empty
selector errors before pushing; an invalid absolute selector errors
*after* pushing and returns early — no handlers, no recursion into `sub`,
and no `pop`, so the fragment stays on the stack.  Otherwise the element
and text handler decisions of lines 184-232 are made, handlers are
registered (`registerRule`), children are compiled with the same stack,
and the fragment is popped. -/
def parseOne (selCheck : String → Option String) (r : Rule) (stack : List String)
    (st : CompSt) : CompSt × List String :=
  match r with
  | .mk s hide delete edit data append prepend insert_before insert_after sub =>
    let sid := st.counter
    let st := { st with counter := st.counter + 1 }
    if s.length = 0 then
      ({ st with errors := st.errors ++ ["Empty selector"] }, stack)
    else
      let stack := stack ++ [s]
      let currentSelector := joinSpace stack
      let st := { st with attempted := st.attempted ++ [currentSelector] }
      match selCheck currentSelector with
      | some cause =>
        ({ st with errors := st.errors ++
            ["Selector " ++ currentSelector ++ " is invalid : " ++ cause] }, stack)
      | none =>
        let st := registerRule hide delete edit data append prepend
          insert_before insert_after currentSelector sid st
        let res :=
          match sub with
          | some children => parseList selCheck children stack st
          | none => (st, stack)
        (res.1, res.2.dropLast)
termination_by structural r

/-- `ShadowApi::parse_rec` (shadow_api.rs lines 119-137): fold `parse_one`
over the sibling rules, threading the error sink, handler list and the
shared selector stack. -/
def parseList (selCheck : String → Option String) (rs : List Rule)
    (stack : List String) (st : CompSt) : CompSt × List String :=
  match rs with
  | [] => (st, stack)
  | r :: rest =>
    let res := parseOne selCheck r stack st
    parseList selCheck rest res.2 res.1
termination_by structural rs

end

/-- `ShadowApi::parse` (shadow_api.rs lines 83-117): compile the rule
forest from an empty stack, then (unless the `as_json` option is set)
register the `data_content_handler` element callback on `body` (rule id 0
is the synthetic root). -/
def parseForest (selCheck : String → Option String) (asJson : Bool)
    (rules : List Rule) : CompSt :=
  let res := parseList selCheck rules []
    { counter := 1, errors := [], handlers := [], attempted := [] }
  if ¬ asJson then
    { res.1 with handlers := res.1.handlers ++ [("body", HKind.element, 0)] }
  else res.1

/-- Concrete rule used to exercise the insertion block: one `insert_after`
list with two markup strings. -/
def c5Rule : Rule :=
  .mk ".x" none none none none none none none (some ["<i>hello</i>", "<b>bye</b>"]) none

/-- Rule with a selector fragment rejected by the modelled selector parser,
carrying one child rule. -/
def c6BadRule : Rule :=
  .mk "bad" (some true) none none none none none none none
    (some [.mk "p" (some true) none none none none none none none none])

/-- Sibling rule with a valid own fragment, compiled after `c6BadRule`. -/
def c6Sibling : Rule := .mk "q" (some true) none none none none none none none none

/-- Concrete stand-in for `Selector::from_str`: every absolute selector
built from the "bad" fragment fails with a fixed cause. -/
def c6SelCheck (s : String) : Option String :=
  if s = "bad" ∨ s = "bad q" ∨ s = "bad p" then some "unexpected token" else none

/-- Fresh compile state (counter starts at 1; 0 is the synthetic root). -/
def c6Init : CompSt := { counter := 1, errors := [], handlers := [], attempted := [] }

/-- Toy compiled pattern standing in for `Regex::new("^(.*) content$")`
with the spec's replacement `"just $1"` applied: maps `meta1 content` to
`just meta1`, `other content` to `just other`, and leaves any other input
unmatched (returned unchanged, as `replace_all` does on zero matches). -/
def c7Regex : CompiledRegex :=
  ⟨fun input _replacement =>
    if input = "meta1 content" then "just meta1"
    else if input = "other content" then "just other"
    else input⟩

/-- Toy stand-in for `Regex::new`: only the spec scenario's pattern
compiles; everything else fails with the crate's error text. -/
def c7Compile (p : String) : Except String CompiledRegex :=
  if p = "^(.*) content$" then .ok c7Regex
  else .error "regex parse error"

/-- Every cached pattern is the successful compilation of its key — the
invariant the cache keeps because only `Ok` results are inserted. -/
def CacheConsistent (compile : String → Except String CompiledRegex)
    (cache : RegexCache) : Prop :=
  ∀ p r, (p, r) ∈ cache → compile p = .ok r

/-- N substitutions in sequence through one shared cache, as a long
document applies one `match_replace` rule to many matched nodes. -/
def runMRSeq (compile : String → Except String CompiledRegex) :
    List (String × String × String) → RegexCache → List (Option String) × RegexCache
  | [], cache => ([], cache)
  | (m, old, new) :: rest, cache =>
    let one := matchReplace compile m old new [] cache
    let more := runMRSeq compile rest one.cache
    (one.result :: more.1, more.2)

/-- Pairs the chunks of one text node with the engine's
`last_in_text_node` flag: every chunk but the last is non-final. -/
def markLast : List String → List (String × Bool)
  | [] => []
  | [c] => [(c, true)]
  | c :: rest => (c, false) :: markLast rest

/-- Concrete rule with an `upsert` content edit and a `Contents` data
value, used to exercise the chunked text handler. -/
def c9Rule : Rule :=
  .mk "h3" none none
    (some { attrs := none, content := some ⟨"upsert", some "replaced", none⟩ })
    (some { path := none, values := some [("t", ValueSource.Contents)] })
    none none none none none

/-- One data-relevant engine event of a document pass, in document order. -/
inductive DocEvent where
  | openTag (sid : Nat) (dd : Option DataDef)
  | textNode (sid : Nat) (dd : Option DataDef) (content : String)
  | closeTag (tagName : String) (sid : Nat) (dd : Option DataDef)

/-- Replays the data callbacks the engine invokes in document order:
element open runs `on_data_tag_open`, a completed text node runs the text
handler's `Contents` writes (text chunks that are not last write nothing),
and the end tag runs `on_data_tag_close`.  A recoverable `Err` is pushed
to the error sink by the real callers; none occurs in the runs considered
here, so the runner simply stops on it. -/
def runEvents : List DocEvent → CrawlState → RRes CrawlState
  | [], st => .ok st
  | .openTag sid dd :: rest, st =>
    (match onDataTagOpen sid dd st with
     | .panic m => .panic m
     | .err m => .err m
     | .ok (_, st') => runEvents rest st')
  | .textNode sid dd content :: rest, st =>
    (match (match dd with
            | some d =>
              (match d.values with
               | some values =>
                 if values.length ≠ 0 then writeContentsValues sid content values st
                 else .ok st
               | none => .ok st)
            | none => .ok st) with
     | .panic m => .panic m
     | .err m => .err m
     | .ok st' => runEvents rest st')
  | .closeTag tagName sid dd :: rest, st =>
    (match onDataTagClose tagName sid dd st with
     | .panic m => .panic m
     | .err m => .err m
     | .ok st' => runEvents rest st')

/-- The scenario rule's data block: `\x7bpath:"items.", values:\x7bt: Contents\x7d\x7d`. -/
def c1DataDef : DataDef :=
  { path := some "items.", values := some [("t", ValueSource.Contents)] }

/-- The engine events for `<div class="x">A</div><div class="x">B</div>`
matched by the one rule: open, text, close of the first div, then the open
of the second div (rule id 1). -/
def c1Events : List DocEvent :=
  [.openTag 1 (some c1DataDef),
   .textNode 1 (some c1DataDef) "A",
   .closeTag "div" 1 (some c1DataDef),
   .openTag 1 (some c1DataDef)]

/-- Crawl state at parse start: the root Object (id 0), cursor at root. -/
def c1Init : CrawlState := { root := .obj (some 0) [], pos := [] }


/-! ## Supporting lemmas about the ordered maps and tree paths -/

theorem assocFind_update_self {m : List (String × SD)} {k : String} {w : SD}
    (h : assocFind m k = some w) (v : SD) :
    assocFind (assocUpdate m k v) k = some v := by
  induction m with
  | nil => simp [assocFind] at h
  | cons hd tl ih =>
    obtain ⟨k', v'⟩ := hd
    by_cases hk : k' = k
    · simp [assocFind, assocUpdate, hk]
    · simp [assocFind, assocUpdate, hk] at h ⊢
      exact ih h

theorem assocFind_update_ne {m : List (String × SD)} {k k2 : String} (v : SD)
    (hne : k2 ≠ k) : assocFind (assocUpdate m k v) k2 = assocFind m k2 := by
  induction m with
  | nil => simp [assocFind, assocUpdate]
  | cons hd tl ih =>
    obtain ⟨k', v'⟩ := hd
    by_cases hk : k' = k
    · subst hk
      simp [assocFind, assocUpdate, Ne.symm hne]
    · simp [assocFind, assocUpdate, hk]
      by_cases hk2 : k' = k2
      · simp [hk2]
      · simp [hk2]
        exact ih

theorem assocFind_append_one_self {m : List (String × SD)} {k : String}
    (h : assocFind m k = none) (v : SD) :
    assocFind (m ++ [(k, v)]) k = some v := by
  induction m with
  | nil => simp [assocFind]
  | cons hd tl ih =>
    obtain ⟨k', v'⟩ := hd
    by_cases hk : k' = k
    · simp [assocFind, hk] at h
    · simp [assocFind, hk] at h ⊢
      exact ih h

theorem assocFind_append_one_ne {m : List (String × SD)} {k k2 : String}
    (hne : k2 ≠ k) (v : SD) :
    assocFind (m ++ [(k, v)]) k2 = assocFind m k2 := by
  induction m with
  | nil => simp [assocFind, Ne.symm hne]
  | cons hd tl ih =>
    obtain ⟨k', v'⟩ := hd
    by_cases hk : k' = k2
    · simp [assocFind, hk]
    · simp [assocFind, hk]
      exact ih

theorem assocFind_eq_none_of_not_mem {m : List (String × SD)} {k : String}
    (h : k ∉ m.map Prod.fst) : assocFind m k = none := by
  induction m with
  | nil => simp [assocFind]
  | cons hd tl ih =>
    obtain ⟨k', v'⟩ := hd
    rw [List.map_cons, List.mem_cons] at h
    push_neg at h
    simp [assocFind, Ne.symm h.1]
    exact ih h.2

theorem mergeStep_find_self (m1 : List (String × SD)) (k : String) (v2 : SD) :
    assocFind (mergeStep m1 k v2) k =
      match assocFind m1 k, v2 with
      | some (.obj i1 o1), .obj _ o2 => some (.obj i1 (mergeInto o1 o2))
      | some _, _ => some v2
      | none, _ => some v2 := by
  unfold mergeStep
  cases hf : assocFind m1 k with
  | none => cases v2 <;> simp [assocFind_append_one_self hf]
  | some v1 => cases v1 <;> cases v2 <;> simp [assocFind_update_self hf]

theorem mergeStep_find_ne (m1 : List (String × SD)) {k k2 : String} (v2 : SD)
    (hne : k2 ≠ k) :
    assocFind (mergeStep m1 k v2) k2 = assocFind m1 k2 := by
  unfold mergeStep
  cases hf : assocFind m1 k with
  | none => cases v2 <;> simp [assocFind_append_one_ne hne]
  | some v1 => cases v1 <;> cases v2 <;> simp [assocFind_update_ne _ hne]

/-- Observable content of `ShadowData::merge`: looking up any key in the
merged map gives `map1`'s value for keys only in `map1`, `map2`'s value for
keys only in `map2` or with non-Object values, and the recursive merge for
keys whose values are Objects on both sides. -/
theorem mergeInto_find (m1 m2 : List (String × SD)) (k : String)
    (hnd : (m2.map Prod.fst).Nodup) :
    assocFind (mergeInto m1 m2) k =
      match assocFind m1 k, assocFind m2 k with
      | some (.obj i1 o1), some (.obj _ o2) => some (.obj i1 (mergeInto o1 o2))
      | _, some v2 => some v2
      | some v1, none => some v1
      | none, none => none := by
  induction m2 generalizing m1 with
  | nil =>
    cases h : assocFind m1 k <;> simp [mergeInto, assocFind, h]
  | cons hd tl ih =>
    obtain ⟨k2, v2⟩ := hd
    simp only [List.map_cons, List.nodup_cons] at hnd
    by_cases hk : k2 = k
    · subst hk
      have htl : assocFind tl k2 = none := by
        apply assocFind_eq_none_of_not_mem
        exact hnd.1
      rw [mergeInto, ih _ hnd.2, htl, mergeStep_find_self]
      simp only [assocFind, if_pos rfl]
      cases hm1 : assocFind m1 k2 with
      | none => cases v2 <;> simp
      | some v1 => cases v1 <;> cases v2 <;> simp
    · rw [mergeInto, ih _ hnd.2, mergeStep_find_ne _ v2 (Ne.symm hk)]
      simp only [assocFind, if_neg hk]

theorem setAtPath_isSome {root : SD} {p : List Step} {node : SD}
    (h : getAtPath root p = some node) (v : SD) :
    ∃ root', setAtPath root p v = some root' := by
  induction p generalizing root with
  | nil => cases root <;> exact ⟨v, rfl⟩
  | cons s rest ih =>
    cases root with
    | str i w => simp [getAtPath] at h
    | arr i items =>
      cases s with
      | key k => simp [getAtPath] at h
      | idx n =>
        cases hn : items[n]? with
        | none => simp [getAtPath, hn] at h
        | some old =>
          simp only [getAtPath, hn] at h
          obtain ⟨upd, hupd⟩ := ih h
          exact ⟨.arr i (items.set n upd), by simp only [setAtPath, hn, hupd]⟩
    | obj i o =>
      cases s with
      | idx n => simp [getAtPath] at h
      | key k =>
        cases hk : assocFind o k with
        | none => simp [getAtPath, hk] at h
        | some old =>
          simp only [getAtPath, hk] at h
          obtain ⟨upd, hupd⟩ := ih h
          exact ⟨.obj i (assocUpdate o k upd), by simp only [setAtPath, hk, hupd]⟩

theorem getAtPath_setAtPath {root root' : SD} {p : List Step} {v : SD}
    (h : setAtPath root p v = some root') : getAtPath root' p = some v := by
  induction p generalizing root root' with
  | nil =>
    cases root <;> simp only [setAtPath] at h <;>
      (injection h with h2; subst h2; cases v <;> rfl)
  | cons s rest ih =>
    cases root with
    | str i w =>
      cases s <;> simp [setAtPath] at h
    | arr i items =>
      cases s with
      | key k => simp [setAtPath] at h
      | idx n =>
        cases hn : items[n]? with
        | none => simp [setAtPath, hn] at h
        | some old =>
          simp only [setAtPath, hn] at h
          cases hupd : setAtPath old rest v with
          | none => rw [hupd] at h; simp at h
          | some upd =>
            rw [hupd] at h
            cases h
            have hlt : n < items.length := by
              by_contra hge
              rw [List.getElem?_eq_none (by omega)] at hn
              cases hn
            simp only [getAtPath, List.getElem?_set_eq_of_lt _ hlt]
            exact ih hupd
    | obj i o =>
      cases s with
      | idx n => simp [setAtPath] at h
      | key k =>
        cases hk : assocFind o k with
        | none => simp [setAtPath, hk] at h
        | some old =>
          simp only [setAtPath, hk] at h
          cases hupd : setAtPath old rest v with
          | none => rw [hupd] at h; simp at h
          | some upd =>
            rw [hupd] at h
            cases h
            simp only [getAtPath, assocFind_update_self hk]
            exact ih hupd

theorem set_obj_ok (i : Option Nat) (o : List (String × SD)) (k : String) (v : SD) :
    ∃ o', SD.set (.obj i o) k v = .ok (.obj i o') := by
  cases hf : assocFind o k with
  | none => exact ⟨o ++ [(k, v)], by simp [SD.set, hf]⟩
  | some ex =>
    cases ex with
    | obj ei eo =>
      cases v with
      | obj vi vo =>
        exact ⟨assocUpdate o k (.obj ei (mergeInto eo vo)), by simp [SD.set, hf]⟩
      | str a b => exact ⟨assocUpdate o k (.str a b), by simp [SD.set, hf]⟩
      | arr a b => exact ⟨assocUpdate o k (.arr a b), by simp [SD.set, hf]⟩
    | str a b =>
      cases v with
      | obj vi vo => exact ⟨assocUpdate o k (.obj vi vo), by simp [SD.set, hf]⟩
      | str c d => exact ⟨assocUpdate o k (.str c d), by simp [SD.set, hf]⟩
      | arr c d => exact ⟨assocUpdate o k (.arr c d), by simp [SD.set, hf]⟩
    | arr a b =>
      cases v with
      | obj vi vo => exact ⟨assocUpdate o k (.obj vi vo), by simp [SD.set, hf]⟩
      | str c d => exact ⟨assocUpdate o k (.str c d), by simp [SD.set, hf]⟩
      | arr c d => exact ⟨assocUpdate o k (.arr c d), by simp [SD.set, hf]⟩

theorem setAtNode_obj {root : SD} {p : List Step} {i : Option Nat}
    {o : List (String × SD)} (h : getAtPath root p = some (.obj i o))
    (k : String) (v : SD) :
    ∃ root' o', setAtNode root p k v = .ok root'
      ∧ getAtPath root' p = some (.obj i o') := by
  obtain ⟨o', hset⟩ := set_obj_ok i o k v
  obtain ⟨root', hsp⟩ := setAtPath_isSome h (.obj i o')
  refine ⟨root', o', ?_, getAtPath_setAtPath hsp⟩
  simp only [setAtNode, h, hset, hsp]

theorem writeContentsValues_ok {st : CrawlState} {i : Option Nat}
    {o : List (String × SD)} (h : getAtPath st.root st.pos = some (.obj i o))
    (sid : Nat) (buf : String) (values : List (String × ValueSource)) :
    ∃ st' o', writeContentsValues sid buf values st = .ok st'
      ∧ st'.pos = st.pos ∧ getAtPath st'.root st'.pos = some (.obj i o') := by
  induction values generalizing st o with
  | nil => exact ⟨st, o, rfl, rfl, h⟩
  | cons hd tl ih =>
    obtain ⟨key, vs⟩ := hd
    cases vs with
    | Contents =>
      obtain ⟨root', o', hnode, hget⟩ := setAtNode_obj h key (.str (some sid) buf)
      have step : writeContentsValues sid buf ((key, ValueSource.Contents) :: tl) st
          = writeContentsValues sid buf tl { st with root := root' } := by
        rw [writeContentsValues, hnode]
      rw [step]
      exact ih hget
    | Attribute nm =>
      have step : writeContentsValues sid buf ((key, ValueSource.Attribute nm) :: tl) st
          = writeContentsValues sid buf tl st := rfl
      rw [step]
      exact ih h
    | Value =>
      have step : writeContentsValues sid buf ((key, ValueSource.Value) :: tl) st
          = writeContentsValues sid buf tl st := rfl
      rw [step]
      exact ih h

theorem textContentHandler_not_last (compile : String → Except String CompiledRegex)
    (r : Rule) (sid : Nat) (c : String) (st : TCState) :
    textContentHandler compile r sid c false st
      = .ok ({ st with buffer := st.buffer ++ c }, "") := rfl

theorem textContentHandler_last_upsert (compile : String → Except String CompiledRegex)
    (r : Rule) (sid : Nat) (v : String) (mo : Option String) (c : String) (st : TCState)
    (hedit : r.edit.bind EditDef.content = some ⟨"upsert", some v, mo⟩)
    {i : Option Nat} {o : List (String × SD)}
    (hobj : getAtPath st.crawl.root st.crawl.pos = some (.obj i o)) :
    ∃ st', textContentHandler compile r sid c true st = .ok (st', v)
      ∧ st'.buffer = "" := by
  have hap : applyContentEdit compile (r.edit.bind EditDef.content)
      (st.buffer ++ c) st.errors st.cache = (v, st.errors, st.cache) := by
    rw [hedit]
    simp [applyContentEdit]
  unfold textContentHandler
  simp only [Bool.not_true, Bool.false_eq_true, if_false, hap]
  cases hd : r.data with
  | none =>
    refine ⟨{ buffer := "", errors := st.errors, cache := st.cache, crawl := st.crawl }, ?_, rfl⟩
    simp
  | some dd =>
    cases hv : dd.values with
    | none =>
      refine ⟨{ buffer := "", errors := st.errors, cache := st.cache, crawl := st.crawl }, ?_, rfl⟩
      simp [hv]
    | some values =>
      by_cases hnil : values = []
      · subst hnil
        refine ⟨{ buffer := "", errors := st.errors, cache := st.cache, crawl := st.crawl }, ?_, rfl⟩
        simp [hv]
      · obtain ⟨crawl', o', hrun, hpos, hget⟩ := writeContentsValues_ok hobj sid v values
        refine ⟨{ buffer := "", errors := st.errors, cache := st.cache, crawl := crawl' }, ?_, rfl⟩
        simp [hv, hnil, hrun]

theorem runTextChunks_upsert (compile : String → Except String CompiledRegex)
    (r : Rule) (sid : Nat) (v : String) (mo : Option String)
    (hedit : r.edit.bind EditDef.content = some ⟨"upsert", some v, mo⟩) :
    ∀ (cs : List String) (st : TCState), cs ≠ [] →
      (∃ i o, getAtPath st.crawl.root st.crawl.pos = some (SD.obj i o)) →
      ∃ stF, runTextChunks compile r sid st (markLast cs)
          = .ok (stF, List.replicate (cs.length - 1) "" ++ [v])
        ∧ stF.buffer = "" := by
  intro cs
  induction cs with
  | nil => intro st h; exact absurd rfl h
  | cons c rest ih =>
    intro st _ hobj
    obtain ⟨i, o, hio⟩ := hobj
    cases rest with
    | nil =>
      obtain ⟨st', hh, hbuf⟩ := textContentHandler_last_upsert compile r sid v mo c st hedit hio
      refine ⟨st', ?_, hbuf⟩
      show runTextChunks compile r sid st [(c, true)] = _
      simp only [runTextChunks, hh]
      simp
    | cons d ds =>
      have hml : markLast (c :: d :: ds) = (c, false) :: markLast (d :: ds) := rfl
      obtain ⟨stF, hrun, hbuf⟩ :=
        ih { st with buffer := st.buffer ++ c } (by simp) ⟨i, o, hio⟩
      refine ⟨stF, ?_, hbuf⟩
      rw [hml]
      simp only [runTextChunks, textContentHandler_not_last, hrun]
      simp [List.replicate_succ]

/-- C2: `ShadowData::set` on an Object receiver never panics; an absent key
is inserted (at the end, preserving first-insertion order); when both the
existing and the new value are Objects they are deep-merged (`mergeInto`:
union of keys, recursion on shared Object keys, the new value winning
otherwise, per `mergeInto_find`); when the types differ or either value is a
String or Array the new value replaces the existing one.  Writing `\x7bx:1\x7d`
then `\x7by:2\x7d` at the same key unions them; writing a string then an object
replaces wholly. -/
theorem c2_object_set_semantics (i : Option Nat) (o : List (String × SD))
    (k : String) (v : SD) :
    isPanic (SD.set (.obj i o) k v) = false
    ∧ (assocFind o k = none → SD.set (.obj i o) k v = .ok (.obj i (o ++ [(k, v)])))
    ∧ (∀ ei eo i2 vo, assocFind o k = some (.obj ei eo) → v = .obj i2 vo →
        ∃ o', SD.set (.obj i o) k v = .ok (.obj i o')
          ∧ assocFind o' k = some (.obj ei (mergeInto eo vo))
          ∧ (∀ k2, k2 ≠ k → assocFind o' k2 = assocFind o k2)
          ∧ (∀ m2, (m2.map Prod.fst).Nodup → ∀ k2,
              assocFind (mergeInto eo m2) k2 =
                match assocFind eo k2, assocFind m2 k2 with
                | some (.obj i1 o1), some (.obj _ o2) => some (.obj i1 (mergeInto o1 o2))
                | _, some v2 => some v2
                | some v1, none => some v1
                | none, none => none))
    ∧ (∀ ex, assocFind o k = some ex → (ex.isObj = false ∨ v.isObj = false) →
        SD.set (.obj i o) k v = .ok (.obj i (assocUpdate o k v))
          ∧ assocFind (assocUpdate o k v) k = some v
          ∧ (∀ k2, k2 ≠ k → assocFind (assocUpdate o k v) k2 = assocFind o k2))
    ∧ SD.set (.obj none [("k", .obj none [("x", .str none "1")])]) "k"
        (.obj none [("y", .str none "2")])
      = .ok (.obj none [("k", .obj none [("x", .str none "1"), ("y", .str none "2")])])
    ∧ SD.set (.obj none [("k", .str none "s")]) "k" (.obj none [("y", .str none "2")])
      = .ok (.obj none [("k", .obj none [("y", .str none "2")])]) := by
  refine ⟨?_, ?_, ?_, ?_, by rfl, by rfl⟩
  · cases hf : assocFind o k with
    | none => simp [SD.set, hf, isPanic]
    | some ex => cases ex <;> cases v <;> simp [SD.set, hf, isPanic]
  · intro h
    simp [SD.set, h]
  · intro ei eo i2 vo hf hv
    subst hv
    refine ⟨assocUpdate o k (.obj ei (mergeInto eo vo)), by simp [SD.set, hf], ?_, ?_, ?_⟩
    · exact assocFind_update_self hf _
    · intro k2 hk2
      exact assocFind_update_ne _ hk2
    · intro m2 hnd k2
      exact mergeInto_find eo m2 k2 hnd
  · intro ex hf hno
    have hrepl : SD.set (.obj i o) k v = .ok (.obj i (assocUpdate o k v)) := by
      cases ex <;> cases v <;> simp_all [SD.set, SD.isObj, hf]
    refine ⟨hrepl, assocFind_update_self hf _, ?_⟩
    intro k2 hk2
    exact assocFind_update_ne _ hk2

/-- Witness for C2 at concrete inputs. -/
theorem c2_object_set_witness :
    SD.set (.obj none [("a", .str none "1")]) "b" (.str none "2")
      = .ok (.obj none [("a", .str none "1"), ("b", .str none "2")])
    ∧ (∃ o', SD.set (.obj none [("k", .obj none [("x", .str none "1")])]) "k"
          (.obj none [("y", .str none "2")]) = .ok (.obj none o')
        ∧ assocFind o' "k"
            = some (.obj none (mergeInto [("x", .str none "1")] [("y", .str none "2")])))
    ∧ SD.set (.obj none [("k", .str none "s")]) "k" (.obj none [("y", .str none "2")])
      = .ok (.obj none (assocUpdate [("k", .str none "s")] "k" (.obj none [("y", .str none "2")]))) := by
  refine ⟨?_, ?_, ?_⟩
  · exact (c2_object_set_semantics none [("a", SD.str none "1")] "b" (SD.str none "2")).2.1 rfl
  · obtain ⟨o', h1, h2, _⟩ :=
      (c2_object_set_semantics none [("k", SD.obj none [("x", SD.str none "1")])] "k"
        (SD.obj none [("y", SD.str none "2")])).2.2.1 none [("x", SD.str none "1")] none
        [("y", SD.str none "2")] rfl rfl
    exact ⟨o', h1, h2⟩
  · exact ((c2_object_set_semantics none [("k", SD.str none "s")] "k"
      (SD.obj none [("y", SD.str none "2")])).2.2.2.1 (SD.str none "s") rfl (Or.inl rfl)).1

/-- C3 (evidence of the code bug): the Display impl does not JSON-escape
string content — it *parses* the quote-wrapped raw value with serde and
falls back to the empty string.  A value containing a double quote
(`a"b`) serializes to `""`: the content is dropped, not escaped, so string
content does not round-trip.  The compact form, key order and separators
are as claimed on escape-free data (third conjunct). -/
theorem c3_display_drops_unescapable_strings :
    SD.serialize (SD.str none "a\"b") = "\"\""
    ∧ (serdeFromStrJsonString ("\"" ++ "a\"b" ++ "\"") = none)
    ∧ SD.serialize (SD.obj none [("items",
        SD.arr none [SD.obj none [("t", SD.str none "A")],
          SD.obj none [("t", SD.str none "B")]])])
      = "\x7b\"items\":[\x7b\"t\":\"A\"\x7d,\x7b\"t\":\"B\"\x7d]\x7d" := by
  refine ⟨rfl, rfl, rfl⟩

/-- C4 (evidence of the code bug): for a hidden, not-deleted element that
already has a `style` attribute, the handler appends `;display: none` to a
local copy returned by `get_attribute` and never writes it back, so the
attribute keeps its old value and does not end with the claimed suffix; a
missing `style` attribute is set to `display: none` as claimed. -/
theorem c4_hide_existing_style_not_written :
    hidePhase true [("style", "color:red")] = [("style", "color:red")]
    ∧ (((attrsGet (hidePhase true [("style", "color:red")]) "style").getD "").endsWith
        "display: none") = false
    ∧ hidePhase true [] = [("style", "display: none")]
    ∧ (elementEditsPhase (fun p => .error p)
        (Rule.mk "a" (some true) none none none none none none none none)
        { attrs := [("style", "color:red")], errors := [], cache := [] }).attrs
      = [("style", "color:red")] := by
  refine ⟨rfl, by decide, rfl, rfl⟩

/-- C5 counterexample: a rule whose `insert_after` list holds two markup
strings makes the handler request two `after` insertions — one per list
entry — not the single insertion per configured list the claim states. -/
theorem c5_counterexample :
    insertionPhase c5Rule = [.after "<i>hello</i>", .after "<b>bye</b>"]
    ∧ ¬ ((insertionPhase c5Rule).length = 1) := by
  refine ⟨rfl, by decide⟩

/-- C5 amended: every entry of each configured insertion list is applied —
the handler requests exactly one structural mutation per list entry, in
list order, in the block order `insert_after`, `insert_before`, `append`,
`prepend`. -/
theorem c5_insertions_per_entry (r : Rule) :
    (insertionPhase r).length =
      (r.insert_after.getD []).length + (r.insert_before.getD []).length
        + (r.append.getD []).length + (r.prepend.getD []).length
    ∧ (∀ h, Instr.after h ∈ insertionPhase r ↔ h ∈ r.insert_after.getD [])
    ∧ (∀ h, Instr.before h ∈ insertionPhase r ↔ h ∈ r.insert_before.getD [])
    ∧ (∀ h, Instr.append h ∈ insertionPhase r ↔ h ∈ r.append.getD [])
    ∧ (∀ h, Instr.prepend h ∈ insertionPhase r ↔ h ∈ r.prepend.getD []) := by
  refine ⟨by simp [insertionPhase]; omega, ?_, ?_, ?_, ?_⟩ <;>
    intro h <;> simp [insertionPhase]

/-- C6 counterexample: compiling the forest `[c6BadRule, c6Sibling]` (bad
rule with a child `p`, then an unrelated sibling `q`) shows the claim
false: the child subtree is never recursed (its absolute selector `bad p`
is never handed to the selector parser) and the sibling is *not* compiled
with an unaffected stack — the failed fragment stays pushed, so the
sibling's absolute selector becomes `bad q`, which also fails, and no
handler is ever registered. -/
theorem c6_counterexample :
    (parseList c6SelCheck [c6BadRule, c6Sibling] [] c6Init).1.attempted = ["bad", "bad q"]
    ∧ (parseList c6SelCheck [c6BadRule, c6Sibling] [] c6Init).1.handlers = []
    ∧ (parseList c6SelCheck [c6BadRule, c6Sibling] [] c6Init).1.errors
        = ["Selector bad is invalid : unexpected token",
           "Selector bad q is invalid : unexpected token"]
    ∧ ¬ ("bad p" ∈ (parseList c6SelCheck [c6BadRule, c6Sibling] [] c6Init).1.attempted
         ∨ ("q", HKind.element, 2) ∈ (parseList c6SelCheck [c6BadRule, c6Sibling] [] c6Init).1.handlers) := by
  refine ⟨rfl, rfl, rfl, ?_⟩
  decide

/-- C6 amended: when a rule's absolute selector fails validation, exactly
one compile error naming that selector and the underlying cause is
appended, no handlers are registered, the children subtree is NOT
recursed, and the rule's fragment is left on the selector stack (the
returned stack is `stack ++ [r.s]`), so later sibling rules' absolute
selectors include the failed fragment. -/
theorem c6_invalid_selector_skips_subtree (selCheck : String → Option String)
    (r : Rule) (stack : List String) (st : CompSt) (cause : String)
    (hs : r.s.length ≠ 0)
    (hbad : selCheck (joinSpace (stack ++ [r.s])) = some cause) :
    parseOne selCheck r stack st =
      ({ st with
          counter := st.counter + 1,
          attempted := st.attempted ++ [joinSpace (stack ++ [r.s])],
          errors := st.errors ++
            ["Selector " ++ joinSpace (stack ++ [r.s]) ++ " is invalid : " ++ cause] },
        stack ++ [r.s]) := by
  cases r with
  | mk s hide delete edit data append prepend insert_before insert_after sub =>
    simp only [Rule.s] at hs hbad
    rw [parseOne, if_neg hs]
    simp only [hbad, Rule.s]

/-- Witness for the amended C6 theorem at a concrete invalid rule. -/
theorem c6_invalid_selector_witness :
    parseOne c6SelCheck c6BadRule [] c6Init
      = ({ counter := 2, errors := ["Selector bad is invalid : unexpected token"],
           handlers := [], attempted := ["bad"] }, ["bad"]) := by
  have h := c6_invalid_selector_skips_subtree c6SelCheck c6BadRule [] c6Init
    "unexpected token" (by decide) (by decide)
  simpa [c6Init, c6BadRule, joinSpace] using h

theorem cacheFind_mem {cache : RegexCache} {p : String} {r : CompiledRegex}
    (h : cacheFind cache p = some r) : (p, r) ∈ cache := by
  induction cache with
  | nil => simp [cacheFind] at h
  | cons hd tl ih =>
    obtain ⟨p', r'⟩ := hd
    by_cases hp : p' = p
    · subst hp
      simp [cacheFind] at h
      subst h
      exact List.mem_cons_self _ _
    · simp [cacheFind, hp] at h
      exact List.mem_cons_of_mem _ (ih h)

theorem matchReplace_consistent (compile : String → Except String CompiledRegex)
    (m old new : String) (errs : List String) {cache : RegexCache}
    (h : CacheConsistent compile cache) :
    CacheConsistent compile (matchReplace compile m old new errs cache).cache := by
  unfold matchReplace
  cases hf : cacheFind cache m with
  | some r => exact h
  | none =>
    cases hc : compile m with
    | ok r =>
      intro p rr hpr
      simp only [List.mem_append, List.mem_singleton] at hpr
      rcases hpr with h1 | h2
      · exact h p rr h1
      · rw [Prod.mk.injEq] at h2
        rw [h2.1, h2.2]
        exact hc
    | error e => exact h

theorem matchReplace_result_consistent (compile : String → Except String CompiledRegex)
    (m old new : String) (errs errs2 : List String) {cache : RegexCache}
    (h : CacheConsistent compile cache) :
    (matchReplace compile m old new errs cache).result
      = (matchReplace compile m old new errs2 []).result := by
  unfold matchReplace
  cases hf : cacheFind cache m with
  | some r =>
    have hc : compile m = .ok r := h m r (cacheFind_mem hf)
    simp [cacheFind, hc]
  | none =>
    cases hc : compile m with
    | ok r => simp [cacheFind, hc]
    | error e => simp [cacheFind, hc]

/-- C8: the regex cache is behaviourally idempotent.  A cached pattern is
reused with the cache unchanged; a first use compiles and appends the
pattern; an uncompilable pattern appends one error per occurrence, caches
nothing and performs no substitution; and a sequence of substitutions
through one shared (consistent) cache returns exactly the results of
independent compilations from an empty cache. -/
theorem c8_regex_cache_behaviour (compile : String → Except String CompiledRegex) :
    (∀ m old new errs cache r, cacheFind cache m = some r →
        matchReplace compile m old new errs cache =
          { result := if r.replaceAll old new ≠ old then some (r.replaceAll old new) else none,
            cache := cache, errors := errs })
    ∧ (∀ m old new errs cache r, cacheFind cache m = none → compile m = .ok r →
        matchReplace compile m old new errs cache =
          { result := if r.replaceAll old new ≠ old then some (r.replaceAll old new) else none,
            cache := cache ++ [(m, r)], errors := errs })
    ∧ (∀ m old new errs cache e, cacheFind cache m = none → compile m = .error e →
        matchReplace compile m old new errs cache =
          { result := none, cache := cache,
            errors := errs ++ ["Invalid regex: " ++ m ++ " | Error: " ++ e] })
    ∧ (∀ ops cache, CacheConsistent compile cache →
        (runMRSeq compile ops cache).1 =
          ops.map (fun t => (matchReplace compile t.1 t.2.1 t.2.2 [] []).result)) := by
  refine ⟨?_, ?_, ?_, ?_⟩
  · intro m old new errs cache r hf
    simp [matchReplace, hf]
  · intro m old new errs cache r hf hc
    simp [matchReplace, hf, hc]
  · intro m old new errs cache e hf hc
    simp [matchReplace, hf, hc]
  · intro ops
    induction ops with
    | nil => intro cache h; simp [runMRSeq]
    | cons hd tl ih =>
      intro cache h
      obtain ⟨m, old, new⟩ := hd
      rw [runMRSeq]
      simp only [List.map_cons]
      rw [matchReplace_result_consistent compile m old new [] [] h,
        ih _ (matchReplace_consistent compile m old new [] h)]


/-- C7: for an attribute `match_replace` edit whose pattern is compiled
(cached, or fresh and compilable), the current value is taken from the
attribute with a missing attribute read as the empty string, one global
`replace_all` runs over it, the attribute is written back if and only if
the result differs from the original, and no error is appended — in
particular on zero matches (`replace_all` returns its input) the attribute
is left byte-identical. -/
theorem c7_attr_match_replace (compile : String → Except String CompiledRegex)
    (key mtch newValue : String) (rg : CompiledRegex) (attrs : Attrs)
    (errors : List String) (cache : RegexCache)
    (hc : cacheFind cache mtch = some rg
          ∨ (cacheFind cache mtch = none ∧ compile mtch = .ok rg)) :
    (editAttrStep compile key ⟨"match_replace", some newValue, some mtch⟩
        ⟨attrs, errors, cache⟩).errors = errors
    ∧ (rg.replaceAll ((attrsGet attrs key).getD "") newValue = (attrsGet attrs key).getD "" →
        (editAttrStep compile key ⟨"match_replace", some newValue, some mtch⟩
          ⟨attrs, errors, cache⟩).attrs = attrs)
    ∧ (rg.replaceAll ((attrsGet attrs key).getD "") newValue ≠ (attrsGet attrs key).getD "" →
        (editAttrStep compile key ⟨"match_replace", some newValue, some mtch⟩
          ⟨attrs, errors, cache⟩).attrs
          = attrsSet attrs key (rg.replaceAll ((attrsGet attrs key).getD "") newValue)) := by
  by_cases hdiff :
    rg.replaceAll ((attrsGet attrs key).getD "") newValue = (attrsGet attrs key).getD "" <;>
    rcases hc with hf | ⟨hf, hcomp⟩ <;>
    simp [editAttrStep, matchReplace, hf, hdiff] <;>
    simp [hcomp, hdiff]

/-- Witness for C7: the spec scenario (`"meta1 content"` rewritten to
`"just meta1"`, a non-matching value left untouched with no error). -/
theorem c7_witness :
    (editAttrStep c7Compile "content" ⟨"match_replace", some "just $1", some "^(.*) content$"⟩
        ⟨[("content", "meta1 content")], [], []⟩).attrs = [("content", "just meta1")]
    ∧ (editAttrStep c7Compile "content" ⟨"match_replace", some "just $1", some "^(.*) content$"⟩
        ⟨[("content", "no match here")], [], []⟩).attrs = [("content", "no match here")]
    ∧ (editAttrStep c7Compile "content" ⟨"match_replace", some "just $1", some "^(.*) content$"⟩
        ⟨[("content", "no match here")], [], []⟩).errors = [] := by
  have h1 := c7_attr_match_replace c7Compile "content" "^(.*) content$" "just $1" c7Regex
    [("content", "meta1 content")] [] [] (Or.inr ⟨rfl, rfl⟩)
  have h2 := c7_attr_match_replace c7Compile "content" "^(.*) content$" "just $1" c7Regex
    [("content", "no match here")] [] [] (Or.inr ⟨rfl, rfl⟩)
  refine ⟨?_, ?_, h2.1⟩
  · rw [h1.2.2 (by decide)]
    rfl
  · exact h2.2.1 (by decide)

/-- Witness for C8 at a concrete compile function and op sequence. -/
theorem c8_witness :
    matchReplace c7Compile "^(.*) content$" "meta1 content" "just $1" [] []
      = { result := some "just meta1", cache := [("^(.*) content$", c7Regex)], errors := [] }
    ∧ (runMRSeq c7Compile
        [("^(.*) content$", "meta1 content", "just $1"),
         ("^(.*) content$", "other content", "just $1"),
         ("bad(", "y", "z")] []).1
      = [some "just meta1", some "just other", none] := by
  constructor
  · have h := (c8_regex_cache_behaviour c7Compile).2.1 "^(.*) content$" "meta1 content"
      "just $1" [] [] c7Regex rfl rfl
    rw [h]
    rfl
  · have h := (c8_regex_cache_behaviour c7Compile).2.2.2
      [("^(.*) content$", "meta1 content", "just $1"),
       ("^(.*) content$", "other content", "just $1"),
       ("bad(", "y", "z")] []
      (by intro p r hm; exact absurd hm (List.not_mem_nil _))
    rw [h]
    rfl



/-- C9: the text handler suppresses every raw chunk (a non-final chunk is
removed from the output and appended to the per-rule buffer, emitting
nothing), and only on the chunk flagged last-in-text-node applies the
content edit op and emits the final buffer exactly once: a text node
delivered as any non-empty chunk list, edited via `upsert`, emits `val`
exactly once at the true end (all earlier emissions are empty) and the
buffer is cleared afterwards. -/
theorem c9_chunked_text (compile : String → Except String CompiledRegex)
    (r : Rule) (sid : Nat) :
    (∀ c st, textContentHandler compile r sid c false st
        = .ok ({ st with buffer := st.buffer ++ c }, ""))
    ∧ (∀ v mo cs (st : TCState), cs ≠ [] →
        r.edit.bind EditDef.content = some ⟨"upsert", some v, mo⟩ →
        (∃ i o, getAtPath st.crawl.root st.crawl.pos = some (SD.obj i o)) →
        ∃ stF, runTextChunks compile r sid st (markLast cs)
            = .ok (stF, List.replicate (cs.length - 1) "" ++ [v])
          ∧ stF.buffer = "") := by
  refine ⟨fun c st => textContentHandler_not_last compile r sid c st, ?_⟩
  intro v mo cs st hne hedit hobj
  exact runTextChunks_upsert compile r sid v mo hedit cs st hne hobj

/-- Witness for C9: five arbitrarily split chunks, `upsert "replaced"`. -/
theorem c9_chunked_text_witness :
    ∃ stF, runTextChunks (fun p => .error p) c9Rule 3
        { buffer := "", errors := [], cache := [],
          crawl := { root := .obj (some 0) [], pos := [] } }
        (markLast ["ab", "c", "", "de", "f"])
      = .ok (stF, ["", "", "", "", "replaced"])
      ∧ stF.buffer = "" := by
  have h := (c9_chunked_text (fun p => .error p) c9Rule 3).2 "replaced" none
    ["ab", "c", "", "de", "f"]
    { buffer := "", errors := [], cache := [],
      crawl := { root := .obj (some 0) [], pos := [] } }
    (by simp) (by rfl) ⟨some 0, [], rfl⟩
  simpa using h


/-- C1 (evidence of the code bug): for the scenario source
`<div class="x">A</div><div class="x">B</div>` with rule
`\x7bs:".x", data:\x7bpath:"items.", values:\x7bt:\x7bsource:"Contents"\x7d\x7d\x7d\x7d`, the first
match builds `\x7b"items":[\x7b"t":"A"\x7d]\x7d` as expected (second conjunct), but
`on_data_tag_close` moves the cursor up to the `items` *array* (the new
element's parent), so the second match's `on_data_tag_open` calls
`ShadowData::get` on an Array and the pass panics instead of appending a
second element — the claimed result `\x7b"items":[\x7b"t":"A"\x7d,\x7b"t":"B"\x7d]\x7d` is
never produced (the sibling-append in the source is commented out). -/
theorem c1_second_sibling_match_panics :
    runEvents c1Events c1Init
      = .panic "ShadowData::get cannot be applied on Array subtype"
    ∧ runEvents (c1Events.take 3) c1Init
      = .ok { root := .obj (some 0)
                [("items", .arr (some 1) [.obj (some 1) [("t", .str (some 1) "A")]])],
              pos := [Step.key "items"] } := by
  exact ⟨rfl, rfl⟩


/-- C10: `ShadowData::get` and `ShadowData::set` on a String or Array
receiver, and `ShadowData::push` on a String or Object receiver, hit the
unconditional `panic!` branches (modelled as `Except.error`) rather than
returning an error or `Option`, so callers must guarantee the receiver's
variant to avoid aborting the pass. -/
theorem c10_nonmatching_subtype_panics (sd : SD) (k : String) (v : SD) :
    ((sd.isStr = true ∨ sd.isArr = true) →
      isPanic (sd.getE k) = true ∧ isPanic (sd.set k v) = true)
    ∧ ((sd.isStr = true ∨ sd.isObj = true) → isPanic (sd.pushE v) = true) := by
  cases sd <;>
    simp [SD.isStr, SD.isArr, SD.isObj, SD.getE, SD.set, SD.pushE, isPanic]

/-- Witness for C10 at concrete inputs. -/
theorem c10_witness :
    isPanic ((SD.str none "x").getE "k") = true
    ∧ isPanic ((SD.str none "x").set "k" (SD.str none "y")) = true
    ∧ isPanic ((SD.arr none []).getE "k") = true
    ∧ isPanic ((SD.arr none []).set "k" (SD.str none "y")) = true
    ∧ isPanic ((SD.obj none []).pushE (SD.str none "y")) = true := by
  obtain ⟨h1, _⟩ := c10_nonmatching_subtype_panics (SD.str none "x") "k" (SD.str none "y")
  obtain ⟨h2, _⟩ := c10_nonmatching_subtype_panics (SD.arr none []) "k" (SD.str none "y")
  obtain ⟨_, h3⟩ := c10_nonmatching_subtype_panics (SD.obj none []) "k" (SD.str none "y")
  refine ⟨(h1 (Or.inl rfl)).1, (h1 (Or.inl rfl)).2, (h2 (Or.inr rfl)).1,
    (h2 (Or.inr rfl)).2, h3 (Or.inr rfl)⟩

end ShadowApi
